import Mathlib

/-!
Verification development for the Weekly_Meal_Planner repository
(`src/menu_manager.py`, `src/send_email.py`, `src/email_manager.py`).

The Python code is shallowly embedded: pure fragments become Lean functions,
the network and the process environment become explicit parameters
(per-item API responses, thread completion orders, set iteration orders,
random draws), and Python exceptions become `Except`/`Option` values.
-/

namespace MealPlanner

/-! ## Enrichment fan-out engine (`MealDataProcessor.fetch_price_and_image`,
`MealDataProcessor.get_price_and_images`, send_email.py lines 141-195)

`fetch_price_and_image` issues `requests.get`, then inside
`try: ... except (IndexError, KeyError): pass` reads
`data["data"][0]["attributes"]['catalogSearchProductOfferResults'][0]['prices'][0]['formattedPrice']`
and the corresponding `images[0]['externalUrlLarge']`.

The network environment is modelled per item as an `ApiResponse`:
* `netError` — `requests.get` itself raises (the exception escapes the
  function, since the `try` block has not been entered yet);
* `badJson` — `response.json()` or the field chain raises an exception that
  `except (IndexError, KeyError)` does not catch (e.g. `ValueError` from
  malformed JSON, or `TypeError` from a non-dict shape);
* `json priceField imageField` — the body parses; `priceField = none` models
  an `IndexError`/`KeyError` anywhere in the price chain (missing fields or
  empty result arrays), `imageField = none` the same for the image chain.
-/

inductive ApiResponse
  | netError
  | badJson
  | json (priceField : Option String) (imageField : Option String)
deriving DecidableEq

/-- Python `image_url.strip("{slug}")`: remove the characters of the set
`\x7b, s, l, u, g, \x7d` from both ends of the string. -/
def stripUrlChars (u : String) : String :=
  let cs := "\x7bslug\x7d".toList
  String.mk (((u.toList.dropWhile (cs.contains ·)).reverse.dropWhile (cs.contains ·)).reverse)

/-- `MealDataProcessor.fetch_price_and_image` (send_email.py lines 141-168).
`Except.error` models an exception escaping the function; `Except.ok` is its
return value `(f'\x7bitem\x7d: \x7bprice\x7d', image)`.  Note that when the price chain
succeeds but the image chain raises `IndexError`/`KeyError`, `price` has
already been reassigned, so the real price is returned with an empty image. -/
def fetch_price_and_image (item : String) (resp : ApiResponse) : Except Unit (String × String) :=
  match resp with
  | .netError => .error ()
  | .badJson => .error ()
  | .json priceField imageField =>
    match priceField with
    | none => .ok (item ++ ": " ++ "Not available", "")
    | some price =>
      match imageField with
      | none => .ok (item ++ ": " ++ price, "")
      | some imageUrl =>
        let u := (stripUrlChars imageUrl).replace "\x7bwidth\x7d" "116"
        .ok (item ++ ": " ++ price, "<img src=" ++ u ++ " alt=" ++ item ++ " height=\x27116\x27>")

/-- The pair of slot values that the collection loop in
`get_price_and_images` leaves for one item: on success the slots receive the
returned content and image, on an escaped exception the loop only prints and
the pre-initialised `None` stays in both slots. -/
def expectedSlot (p : String × ApiResponse) : Option String × Option String :=
  match fetch_price_and_image p.1 p.2 with
  | .ok (content, image) => (some content, some image)
  | .error _ => (none, none)

/-- One iteration of the `for future in as_completed(future_to_index)` loop
of `get_price_and_images` (send_email.py lines 184-191): look up the index of
the completed future, and on success write both slots at that index. -/
def fanoutStep (items : List (String × ApiResponse))
    (acc : List (Option String) × List (Option String)) (idx : Nat) :
    List (Option String) × List (Option String) :=
  match items[idx]? with
  | none => acc
  | some (item, resp) =>
    match fetch_price_and_image item resp with
    | .ok (content, image) => (acc.1.set idx (some content), acc.2.set idx (some image))
    | .error _ => acc

/-- The slot-filling phase of `get_price_and_images` (send_email.py lines
179-191): `new_ingredients` and `image_list` start as `[None] * len(...)`
and the completed futures are processed in the completion order `order`
(a permutation of the indices, chosen by the thread pool). -/
def fanoutSlots (items : List (String × ApiResponse)) (order : List Nat) :
    List (Option String) × List (Option String) :=
  order.foldl (fanoutStep items)
    (List.replicate items.length none, List.replicate items.length none)

/-- The population that `random.sample` draws from in send_email.py line 193:
`[img for img in image_list if img is not None]` — note it keeps the empty
strings produced by caught per-item failures. -/
def imagePool (image_list : List (Option String)) : List String :=
  image_list.filterMap id

/-- The sample size `min(len(image_list), 4)` of send_email.py line 193. -/
def imageSampleSize (image_list : List (Option String)) : Nat :=
  min image_list.length 4

/-- `random.sample(pool, k)`: a possible result is any permutation of a
`k`-element (positional) sub-selection of `pool`; no result exists when
`k > len(pool)` (`random.sample` raises `ValueError` there). -/
def isSample (pool : List α) (k : Nat) (r : List α) : Prop :=
  r.length = k ∧ ∃ l, l.Sublist pool ∧ r.Perm l

/-- The non-empty snippets among the collected image values; the spec's image
selection policy is stated about these. -/
def nonEmptySnippets (image_list : List (Option String)) : List String :=
  (image_list.filterMap id).filter (fun s => s ≠ "")

/-- `' '.join(images)` (send_email.py line 194). -/
def joinImages (imgs : List String) : String :=
  String.intercalate " " imgs

/-! ## Grocery list composer (`MealDataProcessor.get_additional_grocery_list`
and `increment_run_count`, send_email.py lines 125-130 and 197-210)

The run counter file is modelled by passing the current persisted value in
and returning the newly persisted value. -/

/-- `get_additional_grocery_list` composed with `increment_run_count`:
returns the combined list and the counter value written back to the file. -/
def get_additional_grocery_list (separate alternate : List String) (run_count : Nat) :
    List String × Nat :=
  let combined := separate
  let combined := if run_count % 2 == 1 then combined ++ alternate else combined
  (combined, run_count + 1)

/-! ## Python string model

The ingredient strings flow through `str.split(',')`, `str.strip()`,
`str.title()` and `str.lower()`-style comparisons.  Characters are modelled
abstractly: `lower n`/`upper n` are the two cases of the `n`-th letter,
`space` is a whitespace character, `comma` is the split separator, and
`sym n` is any other (uncased) character.  This captures exactly the
structure Python's case functions act on. -/

inductive PyChar
  | lower (n : Nat)
  | upper (n : Nat)
  | space
  | comma
  | sym (n : Nat)
deriving DecidableEq

abbrev PyStr := List PyChar

/-- Python `str.lower` on one character. -/
def pyToLower : PyChar → PyChar
  | .upper n => .lower n
  | c => c

/-- Python `str.upper`/titlecase on one character. -/
def pyToUpper : PyChar → PyChar
  | .lower n => .upper n
  | c => c

def pyIsAlpha : PyChar → Bool
  | .lower _ => true
  | .upper _ => true
  | _ => false

def pyIsSpace : PyChar → Bool
  | .space => true
  | _ => false

/-- Python `str.title`: cased characters that follow a cased character are
lowercased, cased characters that follow an uncased character (or start the
string) are uppercased.  The `Bool` flag records whether the previous
character was cased. -/
def pyTitleAux : Bool → PyStr → PyStr
  | _, [] => []
  | prevCased, c :: cs =>
    if pyIsAlpha c then
      (if prevCased then pyToLower c else pyToUpper c) :: pyTitleAux true cs
    else
      c :: pyTitleAux false cs

def pyTitle (s : PyStr) : PyStr := pyTitleAux false s

/-- Python `str.strip()`: drop leading and trailing whitespace. -/
def pyStrip (s : PyStr) : PyStr := List.rdropWhile pyIsSpace (s.dropWhile pyIsSpace)

/-- Python `str.split(',')`. -/
def pySplit : PyStr → List PyStr
  | [] => [[]]
  | c :: cs =>
    match pySplit cs with
    | [] => [[c]]
    | t :: ts => if c = .comma then [] :: t :: ts else (c :: t) :: ts

/-! ## Ingredient normalizer and aisle sorter
(`MealDataProcessor.get_ingredients`, send_email.py lines 132-139)

```
ingredients = [i.split(',')[0:] for i in self.meals_dict['Ingredients']]
ingredients = set([item.strip().title() for sublist in ingredients for item in sublist])
self.ingredients = sorted(ingredients, key=lambda x: self.aisle_numbers.get(x.title(), float('inf')))
```

The normalized tokens (before the `set(...)` collapses duplicates). -/
def normalizeTokens (fields : List PyStr) : List PyStr :=
  ((fields.map pySplit).flatten).map (fun item => pyTitle (pyStrip item))

/-- The Python `set(...)` of normalized tokens. -/
def normalizeSet (fields : List PyStr) : Finset PyStr :=
  (normalizeTokens fields).toFinset

/-- The sort key `self.aisle_numbers.get(x.title(), float('inf'))`:
`aisle_numbers` is the dict loaded from the aisle CSV, `float('inf')` is `⊤`. -/
def aisleKey (aisle_numbers : PyStr → Option Nat) (x : PyStr) : WithTop Nat :=
  match aisle_numbers (pyTitle x) with
  | some n => (n : WithTop Nat)
  | none => ⊤

instance aisleLeDecidable (aisle_numbers : PyStr → Option Nat) :
    DecidableRel (fun a b => aisleKey aisle_numbers a ≤ aisleKey aisle_numbers b) :=
  fun a b => inferInstanceAs (Decidable (aisleKey aisle_numbers a ≤ aisleKey aisle_numbers b))

/-- `sorted(ingredients, key=...)`: Python's `sorted` is a stable sort on the
iteration order `enum` of the set; a stable sort by a key over a total
preorder is insertion sort with the relation `key a ≤ key b`. -/
def sortIngredients (aisle_numbers : PyStr → Option Nat) (enum : List PyStr) : List PyStr :=
  List.insertionSort (fun a b => aisleKey aisle_numbers a ≤ aisleKey aisle_numbers b) enum

/-! ## Menu selector (`MenuManager.get_weeks_meals`, menu_manager.py lines 33-45)

A catalog row; the fields are opaque strings except the `Ingredients` field,
which downstream code parses.  Records compare by full-field equality, which
is exactly how the `pd.merge(..., indicator=True, how='outer')
.query('_merge=="left_only"')` exclusion works. -/
structure MealRecord where
  meal : String
  ingredientsField : PyStr
  image : String
deriving DecidableEq

/-- The candidate pool: catalog rows not exactly matching any exclusion row
(the `left_only` rows of the outer merge on all columns). -/
def candidatePool (catalog exclusions : List MealRecord) : List MealRecord :=
  catalog.filter (fun r => decide (r ∉ exclusions))

/-- `df_poss_weekly_choices.sample(count)`: `draw` is the random sample the
pandas sampler picks (constrained by `isSample` in the theorems);
`pd.DataFrame.sample` raises `ValueError` — the error the spec names
`InsufficientCandidatesError` — when `count` exceeds the pool size. -/
def get_weeks_meals (catalog exclusions : List MealRecord) (count : Nat)
    (draw : List MealRecord) : Except Unit (List MealRecord) :=
  if count ≤ (candidatePool catalog exclusions).length then .ok draw else .error ()

/-! ## The `main()` driver of send_email.py (lines 212-236), as a trace of
observable effects. -/

inductive Ev
  | selectMeals
  | writeLastWeek
  | enrichPhase
  | netRequest (item : PyStr)
  | incrementCounter
  | sendEmail
  | printNoMeals
deriving DecidableEq

/-- The sequence of observable effects of `main()`:
`menu_manager.get_weeks_meals()` (which aborts the run when sampling
raises), `update_last_week`, `get_ingredients` + `get_price_and_images`
(entering the enrichment phase and issuing one request per sorted
ingredient), `get_additional_grocery_list` (which increments the persisted
counter), then either `send_email` or the `"No meals available to send."`
message depending on `week_meals_df` being non-`None` and non-empty.
`enum` is the iteration order of the normalized ingredient set. -/
def mainTrace (catalog exclusions : List MealRecord) (count : Nat) (draw : List MealRecord)
    (aisle_numbers : PyStr → Option Nat) (enum : List PyStr) : List Ev :=
  match get_weeks_meals catalog exclusions count draw with
  | .error _ => [Ev.selectMeals]
  | .ok selection =>
    let ingredients := sortIngredients aisle_numbers enum
    [Ev.selectMeals, Ev.writeLastWeek, Ev.enrichPhase] ++ ingredients.map Ev.netRequest ++
      [Ev.incrementCounter] ++
      (if selection.isEmpty then [Ev.printNoMeals] else [Ev.sendEmail])

/-! ## Email rendering (`EmailManager.create_email_content`,
email_manager.py lines 44-163)

The HTML/CSS boilerplate string of lines 70-137 (braces written `\x7b`/`\x7d`,
apostrophes `\x27`). -/
def emailHeader : String :=
"
        <!DOCTYPE html>
        <html>
        <head>
            <style>
                body \x7b
                    font-family: Arial, sans-serif;
                    margin: 0;
                    padding: 0;
                    background-color: #f4f4f4;
                \x7d
                .container \x7b
                    width: 600px;
                    margin: 0 auto;
                    background-color: #fff;
                    padding: 0px;
                \x7d
                .header \x7b
                    background-color: #5bc0de;
                    color: white;
                    text-align: center;
                    padding: 30px 0;
                    font-size: 40px;
                    font-weight: bold;
                \x7d
                .day \x7b
                    position: relative;
                    margin: 20px 0;
                    height: 150px; /* Adjust the height as needed */
                    background-size: cover;
                    background-position: center;
                \x7d
                .day p \x7b
                    position: absolute;
                    top: 120px;
                    left: 0;
                    width: 60%;
                    background-color: rgba(255, 255, 255, 0.8);
                    padding: 5px 30px;
                    font-size: 18px;
                    display:inline-block;
                    margin: 0;
                    box-sizing: border-box;
                \x7d
                .grocery-list \x7b
                    background-color: #5bc0de;
                    padding: 10px;
                    color: white;
                    margin: 0px auto;
                    font-size: 16px;
                    width: 75%;
                    text-align: center;
                \x7d
                .grocery-list ul \x7b
                    list-style-type: none;
                    padding: 0;
                \x7d
                .grocery-list ul li \x7b
                    margin: 5px 0;
                \x7d
            </style>
        </head>
        <body>
            <div class=\"container\">
                <div class=\"header\">
                    This Week's Menu!
                </div>
        "

/-- One iteration of the `for i, day in enumerate(days)` loop body
(email_manager.py lines 138-141). -/
def dayBlock (day meal img : String) : String :=
  "<div class=\"day\" style=\"background-image: url(\x27" ++ img ++ "\x27);\">\n" ++
  "                                    <p><strong>" ++ day ++ ":</strong> " ++ meal ++ "</p>\n" ++
  "                                 </div>"

def groceryListOpen : String :=
  "<div class=\"grocery-list\">\n                            <h3><b><p>Grocery List</p></b></h3>\n                            <ul>"

def additionalListOpen : String :=
  "<div class=\"grocery-list\">\n                            <h3><b><p>Additional Grocery List</p></b></h3>\n                            <ul>"

def listClose : String := "</ul><br>"

def emailFooter : String := "\n            </div>\n        </body>\n        </html>"

/-- Python `str(x)` for the possibly-`None` enriched-ingredient entries:
`f\"<li>\x7bingredient\x7d</li>\"` renders `None` as the text `None`. -/
def pyShowOpt (x : Option String) : String :=
  match x with
  | some s => s
  | none => "None"

def listItemsHtml (xs : List String) : String :=
  String.join (xs.map (fun x => "<li>" ++ x ++ "</li>"))

def days : List String := ["Monday", "Tuesday", "Wednesday", "Thursday"]

/-- One `for i, day in enumerate(days)` iteration: reads
`recipe_images[i]` and `meals[i]` (either read raises `IndexError` — `none` —
when the menu has fewer rows). -/
def dayPart (menu_meals menu_images : List String) (p : Nat × String) : Option String := do
  let img ← menu_images[p.1]?
  let meal ← menu_meals[p.1]?
  pure (dayBlock p.2 meal img)

/-- `EmailManager.create_email_content`: `menu_meals = menu_df['Meal'].values`
and `menu_images = menu_df['Image'].values` (one entry per menu row).
`none` models the `IndexError` raised by `meals[i]`/`recipe_images[i]` when
the menu has fewer rows than the four hard-coded weekdays. -/
def create_email_content (menu_meals menu_images : List String)
    (ingredients_prices : List (Option String)) (images : String)
    (additional_grocery_list : List String) : Option String := do
  let dayParts ← days.enum.mapM (dayPart menu_meals menu_images)
  pure (emailHeader ++ String.join dayParts ++
    groceryListOpen ++ listItemsHtml (ingredients_prices.map pyShowOpt) ++ listClose ++
    additionalListOpen ++ listItemsHtml additional_grocery_list ++ listClose ++
    images ++ emailFooter)

/-! ### Helper lemmas for the fan-out engine -/

lemma length_filterMap_id_of_all_some (il : List (Option String))
    (hall : ∀ o ∈ il, o ≠ none) : (il.filterMap id).length = il.length := by
  induction il with
  | nil => rfl
  | cons o os ih =>
    cases o with
    | none => exact absurd rfl (hall none (List.mem_cons_self _ _))
    | some s =>
      simp only [List.filterMap_cons]
      have := ih (fun o ho => hall o (List.mem_cons_of_mem _ ho))
      simp [this]

lemma fanoutStep_length (items : List (String × ApiResponse))
    (acc : List (Option String) × List (Option String)) (idx : Nat) :
    (fanoutStep items acc idx).1.length = acc.1.length ∧
      (fanoutStep items acc idx).2.length = acc.2.length := by
  unfold fanoutStep
  cases h : items[idx]? with
  | none => exact ⟨rfl, rfl⟩
  | some p =>
    obtain ⟨item, resp⟩ := p
    cases hf : fetch_price_and_image item resp with
    | ok v => obtain ⟨c, img⟩ := v; simp [hf, List.length_set]
    | error e => simp [hf]

lemma fanout_foldl_length (items : List (String × ApiResponse)) (order : List Nat)
    (acc : List (Option String) × List (Option String)) :
    (order.foldl (fanoutStep items) acc).1.length = acc.1.length ∧
      (order.foldl (fanoutStep items) acc).2.length = acc.2.length := by
  induction order generalizing acc with
  | nil => exact ⟨rfl, rfl⟩
  | cons j rest ih =>
    have h1 := fanoutStep_length items acc j
    have h2 := ih (fanoutStep items acc j)
    simp only [List.foldl_cons]
    exact ⟨h2.1.trans h1.1, h2.2.trans h1.2⟩

/-- How one slot evolves: if index `i` occurs in the completion order, its
final content is the successful fetch result when the fetch succeeds, and
whatever was there before when the fetch raises; indices outside the order
are untouched. -/
lemma fanout_foldl_get (items : List (String × ApiResponse)) (order : List Nat)
    (acc : List (Option String) × List (Option String))
    (ha : acc.1.length = items.length) (hb : acc.2.length = items.length)
    (i : Nat) (hi : i < items.length) :
    ((order.foldl (fanoutStep items) acc).1[i]?, (order.foldl (fanoutStep items) acc).2[i]?) =
      if i ∈ order then
        match fetch_price_and_image items[i].1 items[i].2 with
        | .ok (content, image) => (some (some content), some (some image))
        | .error _ => (acc.1[i]?, acc.2[i]?)
      else (acc.1[i]?, acc.2[i]?) := by
  induction order generalizing acc with
  | nil => simp
  | cons j rest ih =>
    have hstep := fanoutStep_length items acc j
    have ih' := ih (fanoutStep items acc j) (hstep.1.trans ha) (hstep.2.trans hb)
    simp only [List.foldl_cons]
    rw [ih']
    by_cases hj : i = j
    · subst hj
      have hget : items[i]? = some items[i] := List.getElem?_eq_getElem hi
      have hIn : i ∈ i :: rest := List.mem_cons_self i rest
      cases hf : fetch_price_and_image items[i].1 items[i].2 with
      | ok v =>
        obtain ⟨c, img⟩ := v
        have hstepEq : fanoutStep items acc i = (acc.1.set i (some c), acc.2.set i (some img)) := by
          unfold fanoutStep
          rw [hget]
          simp [hf]
        have e1 : (acc.1.set i (some c))[i]? = some (some c) :=
          List.getElem?_set_eq (by rw [ha]; exact hi)
        have e2 : (acc.2.set i (some img))[i]? = some (some img) :=
          List.getElem?_set_eq (by rw [hb]; exact hi)
        by_cases hrest : i ∈ rest <;>
          simp [hrest, hf, hIn, hstepEq, e1, e2]
      | error e =>
        have hstepEq : fanoutStep items acc i = acc := by
          unfold fanoutStep
          rw [hget]
          simp [hf]
        by_cases hrest : i ∈ rest <;> simp [hrest, hf, hIn, hstepEq]
    · have hne : j ≠ i := fun h => hj h.symm
      have hstep_get : (fanoutStep items acc j).1[i]? = acc.1[i]? ∧
          (fanoutStep items acc j).2[i]? = acc.2[i]? := by
        unfold fanoutStep
        cases hget : items[j]? with
        | none => exact ⟨rfl, rfl⟩
        | some p =>
          obtain ⟨item, resp⟩ := p
          cases hf : fetch_price_and_image item resp with
          | ok v =>
            obtain ⟨c, img⟩ := v
            simp [hf, List.getElem?_set_ne hne]
          | error e => simp [hf]
      rw [hstep_get.1, hstep_get.2]
      simp only [List.mem_cons, hj, false_or]

/-- Specialisation to the actual initial state (`[None] * len(...)`). -/
lemma fanoutSlots_get (items : List (String × ApiResponse)) (order : List Nat)
    (horder : order.Perm (List.range items.length)) (i : Nat) (hi : i < items.length) :
    (fanoutSlots items order).1[i]? = some (expectedSlot items[i]).1 ∧
      (fanoutSlots items order).2[i]? = some (expectedSlot items[i]).2 := by
  have hmem : i ∈ order := horder.mem_iff.2 (List.mem_range.2 hi)
  have hrep : (List.replicate items.length (none : Option String))[i]? = some none :=
    List.getElem?_replicate_of_lt hi
  have h := fanout_foldl_get items order
    (List.replicate items.length none, List.replicate items.length none)
    (List.length_replicate _ _) (List.length_replicate _ _) i hi
  rw [if_pos hmem] at h
  unfold fanoutSlots expectedSlot
  cases hf : fetch_price_and_image items[i].1 items[i].2 with
  | ok v =>
    obtain ⟨c, img⟩ := v
    rw [hf] at h
    exact ⟨congrArg Prod.fst h, congrArg Prod.snd h⟩
  | error e =>
    rw [hf] at h
    simp only at h
    refine ⟨?_, ?_⟩
    · exact (congrArg Prod.fst h).trans hrep
    · exact (congrArg Prod.snd h).trans hrep

lemma fanoutSlots_length (items : List (String × ApiResponse)) (order : List Nat) :
    (fanoutSlots items order).1.length = items.length ∧
      (fanoutSlots items order).2.length = items.length := by
  have h := fanout_foldl_length items order
    (List.replicate items.length none, List.replicate items.length none)
  simpa [fanoutSlots] using h

/-! ### Helper lemmas for the Python string model -/

lemma pyTitleAux_length (b : Bool) (s : PyStr) : (pyTitleAux b s).length = s.length := by
  induction s generalizing b with
  | nil => rfl
  | cons c cs ih =>
    cases c <;> cases b <;> simp [pyTitleAux, pyIsAlpha, ih]

lemma pyTitleAux_map_toLower (b : Bool) (s : PyStr) :
    (pyTitleAux b s).map pyToLower = s.map pyToLower := by
  induction s generalizing b with
  | nil => rfl
  | cons c cs ih =>
    cases c <;> cases b <;> simp [pyTitleAux, pyIsAlpha, pyToLower, pyToUpper, ih]

lemma pyTitleAux_map_isSpace (b : Bool) (s : PyStr) :
    (pyTitleAux b s).map pyIsSpace = s.map pyIsSpace := by
  induction s generalizing b with
  | nil => rfl
  | cons c cs ih =>
    cases c <;> cases b <;> simp [pyTitleAux, pyIsAlpha, pyIsSpace, pyToLower, pyToUpper, ih]

/-- `str.title` is determined by the caseless (lowercased) character
sequence. -/
lemma pyTitleAux_congr (s : PyStr) : ∀ (t : PyStr) (b : Bool),
    s.map pyToLower = t.map pyToLower → pyTitleAux b s = pyTitleAux b t := by
  induction s with
  | nil =>
    intro t b h
    have : t = [] := by
      cases t with
      | nil => rfl
      | cons d ds => simp at h
    rw [this]
  | cons c cs ih =>
    intro t b h
    cases t with
    | nil => simp at h
    | cons d ds =>
      simp only [List.map_cons, List.cons.injEq] at h
      obtain ⟨hcd, hrest⟩ := h
      have htail : ∀ b, pyTitleAux b cs = pyTitleAux b ds := fun b => ih ds b hrest
      cases c <;> cases d <;>
        simp_all [pyToLower, pyTitleAux, pyIsAlpha, pyToUpper]

/-- `str.title` is idempotent. -/
lemma pyTitleAux_idem (s : PyStr) : ∀ b, pyTitleAux b (pyTitleAux b s) = pyTitleAux b s := by
  induction s with
  | nil => intro b; rfl
  | cons c cs ih =>
    intro b
    cases c <;> cases b <;>
      simp [pyTitleAux, pyIsAlpha, pyToLower, pyToUpper, ih]

lemma comma_mem_pyTitleAux (b : Bool) (s : PyStr) :
    PyChar.comma ∈ pyTitleAux b s ↔ PyChar.comma ∈ s := by
  induction s generalizing b with
  | nil => simp [pyTitleAux]
  | cons c cs ih =>
    cases c <;> cases b <;>
      simp [pyTitleAux, pyIsAlpha, pyToLower, pyToUpper, ih]

lemma pySplit_ne_nil (s : PyStr) : pySplit s ≠ [] := by
  cases s with
  | nil => simp [pySplit]
  | cons c cs =>
    unfold pySplit
    cases h : pySplit cs with
    | nil => simp
    | cons t ts =>
      by_cases hc : c = PyChar.comma <;> simp [hc]

lemma comma_not_mem_of_mem_pySplit (s : PyStr) :
    ∀ t ∈ pySplit s, PyChar.comma ∉ t := by
  induction s with
  | nil =>
    intro t ht
    simp [pySplit] at ht
    simp [ht]
  | cons c cs ih =>
    intro t ht
    cases h : pySplit cs with
    | nil => exact absurd h (pySplit_ne_nil cs)
    | cons t0 ts =>
      have hsplit : pySplit (c :: cs) =
          if c = PyChar.comma then [] :: t0 :: ts else (c :: t0) :: ts := by
        unfold pySplit
        rw [h]
      rw [hsplit] at ht
      by_cases hc : c = PyChar.comma
      · rw [if_pos hc] at ht
        rcases List.mem_cons.1 ht with rfl | ht
        · simp
        · exact ih t (h ▸ ht)
      · rw [if_neg hc] at ht
        rcases List.mem_cons.1 ht with rfl | ht
        · intro hmem
          rcases List.mem_cons.1 hmem with h' | h'
          · exact hc h'.symm
          · exact ih t0 (h ▸ List.mem_cons_self t0 ts) h'
        · exact ih t (h ▸ List.mem_cons_of_mem t0 ht)

lemma pySplit_of_no_comma (s : PyStr) (h : PyChar.comma ∉ s) : pySplit s = [s] := by
  induction s with
  | nil => rfl
  | cons c cs ih =>
    have hc : c ≠ PyChar.comma := fun hc => h (hc ▸ List.mem_cons_self c cs)
    have hcs : PyChar.comma ∉ cs := fun hm => h (List.mem_cons_of_mem c hm)
    unfold pySplit
    rw [ih hcs]
    simp [hc]

lemma pyStrip_sublist (s : PyStr) : (pyStrip s).Sublist s := by
  unfold pyStrip
  exact (( List.rdropWhile_prefix pyIsSpace _).sublist).trans
    (List.dropWhile_suffix pyIsSpace).sublist

/-- The head of `pyStrip s` is not a space. -/
lemma pyStrip_dropWhile (s : PyStr) : (pyStrip s).dropWhile pyIsSpace = pyStrip s := by
  rw [List.dropWhile_eq_self_iff]
  intro hl
  unfold pyStrip at *
  set X := s.dropWhile pyIsSpace with hX
  have hpre := List.rdropWhile_prefix pyIsSpace X
  have hlenle : (List.rdropWhile pyIsSpace X).length ≤ X.length := hpre.length_le
  have hXpos : 0 < X.length := lt_of_lt_of_le hl hlenle
  have hget : (List.rdropWhile pyIsSpace X).get ⟨0, hl⟩ = X.get ⟨0, hXpos⟩ := by
    have := hpre.getElem (n := 0) hl
    simpa [List.get_eq_getElem] using this
  rw [hget]
  exact List.dropWhile_get_zero_not pyIsSpace s hXpos

/-- `str.strip` is idempotent. -/
lemma pyStrip_idem (s : PyStr) : pyStrip (pyStrip s) = pyStrip s := by
  have h1 : pyStrip (pyStrip s) = List.rdropWhile pyIsSpace ((pyStrip s).dropWhile pyIsSpace) :=
    rfl
  rw [h1, pyStrip_dropWhile s]
  unfold pyStrip
  exact List.rdropWhile_idempotent pyIsSpace _

lemma pyStrip_eq_self_parts (s : PyStr) (h : pyStrip s = s) :
    s.dropWhile pyIsSpace = s ∧ List.rdropWhile pyIsSpace s = s := by
  have hdrop : s.dropWhile pyIsSpace = s := by
    have h1 : (pyStrip s).length ≤ (s.dropWhile pyIsSpace).length :=
      ( List.rdropWhile_prefix pyIsSpace _).length_le
    have h2 : (s.dropWhile pyIsSpace).length ≤ s.length :=
      (List.dropWhile_suffix pyIsSpace).sublist.length_le
    have h3 : (pyStrip s).length = s.length := by rw [h]
    exact (List.dropWhile_suffix pyIsSpace).eq_of_length (by omega)
  refine ⟨hdrop, ?_⟩
  have : pyStrip s = List.rdropWhile pyIsSpace s := by
    unfold pyStrip
    rw [hdrop]
  rw [← this, h]

/-- `str.title` preserves strip-fixedness: if `s` has no leading or trailing
whitespace then neither does `pyTitleAux b s`. -/
lemma pyStrip_pyTitleAux (b : Bool) (s : PyStr) (h : pyStrip s = s) :
    pyStrip (pyTitleAux b s) = pyTitleAux b s := by
  obtain ⟨hdrop, hrdrop⟩ := pyStrip_eq_self_parts s h
  have hlen : (pyTitleAux b s).length = s.length := pyTitleAux_length b s
  have hspat : (pyTitleAux b s).map pyIsSpace = s.map pyIsSpace := pyTitleAux_map_isSpace b s
  have hspace : ∀ i : Nat, (pyTitleAux b s)[i]?.map pyIsSpace = s[i]?.map pyIsSpace := by
    intro i
    have := congrArg (fun l : List Bool => l[i]?) hspat
    simpa [List.getElem?_map] using this
  have hdropT : (pyTitleAux b s).dropWhile pyIsSpace = pyTitleAux b s := by
    rw [List.dropWhile_eq_self_iff]
    intro hl
    have hS : 0 < s.length := by omega
    have h0 : pyIsSpace ((pyTitleAux b s)[0]) = pyIsSpace (s[0]) := by
      have h := hspace 0
      rw [List.getElem?_eq_getElem hl, List.getElem?_eq_getElem hS] at h
      exact Option.some.inj h
    rw [List.get_eq_getElem, h0]
    have hfix := (List.dropWhile_eq_self_iff.1 hdrop) hS
    rwa [List.get_eq_getElem] at hfix
  have hrdropT : List.rdropWhile pyIsSpace (pyTitleAux b s) = pyTitleAux b s := by
    rw [List.rdropWhile_eq_self_iff]
    intro hl
    have hTpos : 0 < (pyTitleAux b s).length := List.length_pos.2 hl
    have hSpos : 0 < s.length := by omega
    have hSne : s ≠ [] := List.length_pos.1 hSpos
    have hidxS : s.length - 1 < s.length := by omega
    have hidxT : s.length - 1 < (pyTitleAux b s).length := by omega
    have hlast : pyIsSpace ((pyTitleAux b s)[s.length - 1]) = pyIsSpace (s[s.length - 1]) := by
      have h := hspace (s.length - 1)
      rw [List.getElem?_eq_getElem hidxT, List.getElem?_eq_getElem hidxS] at h
      exact Option.some.inj h
    rw [List.getLast_eq_getElem]
    simp only [hlen]
    rw [hlast]
    have hfix := (List.rdropWhile_eq_self_iff.1 hrdrop) hSne
    rwa [List.getLast_eq_getElem] at hfix
  unfold pyStrip
  rw [hdropT, hrdropT]

/-- A normalized token `item.strip().title()` is strip-fixed. -/
lemma pyStrip_normalized (t : PyStr) :
    pyStrip (pyTitle (pyStrip t)) = pyTitle (pyStrip t) :=
  pyStrip_pyTitleAux false (pyStrip t) (pyStrip_idem t)

/-- A normalized token is title-fixed. -/
lemma pyTitle_normalized (t : PyStr) :
    pyTitle (pyTitle (pyStrip t)) = pyTitle (pyStrip t) :=
  pyTitleAux_idem (pyStrip t) false

/-- Normalizing tokens that are already normalized (no comma, strip-fixed,
title-fixed) is the identity. -/
lemma normalizeTokens_fixed (l : List PyStr)
    (h : ∀ x ∈ l, PyChar.comma ∉ x ∧ pyTitle (pyStrip x) = x) :
    normalizeTokens l = l := by
  induction l with
  | nil => rfl
  | cons x xs ih =>
    have hx := h x (List.mem_cons_self x xs)
    have hxs := ih (fun y hy => h y (List.mem_cons_of_mem x hy))
    unfold normalizeTokens at *
    simp only [List.map_cons, List.flatten_cons, pySplit_of_no_comma x hx.1,
      List.singleton_append, List.map_cons]
    rw [hx.2, hxs]

/-- Every member of the normalized set is of the form
`pyTitle (pyStrip token)` for a comma-free token. -/
lemma mem_normalizeSet (fields : List PyStr) (x : PyStr) (hx : x ∈ normalizeSet fields) :
    ∃ t, PyChar.comma ∉ t ∧ x = pyTitle (pyStrip t) := by
  unfold normalizeSet at hx
  rw [List.mem_toFinset] at hx
  unfold normalizeTokens at hx
  rw [List.mem_map] at hx
  obtain ⟨t, ht, rfl⟩ := hx
  rw [List.mem_flatten] at ht
  obtain ⟨grp, hgrp, htg⟩ := ht
  rw [List.mem_map] at hgrp
  obtain ⟨fld, _, rfl⟩ := hgrp
  exact ⟨t, comma_not_mem_of_mem_pySplit fld t htg, rfl⟩

/-! ### Claim C2: position fidelity of the fan-out engine -/

/-- C2: for every ordered ingredient list of length N and every completion
order of the underlying concurrent calls, the output slot sequences have
length N and slot `i` holds exactly the enrichment result of input `i`
(`expectedSlot`), which does not depend on the completion order: ordering is
fixed by index-based slot assignment, not by completion order. -/
theorem claim_C2_position_fidelity (items : List (String × ApiResponse)) (order : List Nat)
    (horder : order.Perm (List.range items.length)) :
    (fanoutSlots items order).1.length = items.length ∧
    (fanoutSlots items order).2.length = items.length ∧
    ∀ i (hi : i < items.length),
      (fanoutSlots items order).1[i]? = some (expectedSlot items[i]).1 ∧
      (fanoutSlots items order).2[i]? = some (expectedSlot items[i]).2 := by
  refine ⟨(fanoutSlots_length items order).1, (fanoutSlots_length items order).2, ?_⟩
  intro i hi
  exact fanoutSlots_get items order horder i hi

/-- Witness for C2 at a concrete 2-item batch processed in reversed
completion order. -/
theorem claim_C2_position_fidelity_witness :
    (fanoutSlots [("Apple", ApiResponse.json (some "$1.39") none), ("Beans", ApiResponse.netError)]
        [1, 0]).1[0]? = some (some "Apple: $1.39") ∧
    (fanoutSlots [("Apple", ApiResponse.json (some "$1.39") none), ("Beans", ApiResponse.netError)]
        [1, 0]).1[1]? = some none := by
  have h := claim_C2_position_fidelity
    [("Apple", ApiResponse.json (some "$1.39") none), ("Beans", ApiResponse.netError)]
    [1, 0] (by decide)
  have h0 := (h.2.2 0 (by decide)).1
  have h1 := (h.2.2 1 (by decide)).1
  exact ⟨h0.trans (by decide), h1.trans (by decide)⟩

/-! ### Claim C1: per-item failure isolation (corrected)

The claim as frozen says that a network error is also converted into the
`"Not available"`/empty-image placeholder.  In the code only `IndexError`
and `KeyError` are caught inside `fetch_price_and_image`; a network error or
malformed JSON escapes, is caught by the `except Exception` around
`future.result()`, and leaves the pre-initialised `None` in both slots. -/

/-- C1 (counterexample to the frozen claim): a 5-item batch whose 3rd lookup
raises a network error yields 5 results with the 3rd slot still `None`
(`some none`) — not the `"Corn: Not available"`/empty-image placeholder the
claim requires — while the batch is not aborted. -/
theorem claim_C1_counterexample :
    (fanoutSlots [("Apple", ApiResponse.json (some "$1.00") none),
        ("Beans", ApiResponse.json (some "$2.00") none),
        ("Corn", ApiResponse.netError),
        ("Dill", ApiResponse.json none none),
        ("Eggs", ApiResponse.json (some "$3.00") none)] [0, 1, 2, 3, 4]).1.length = 5 ∧
    (fanoutSlots [("Apple", ApiResponse.json (some "$1.00") none),
        ("Beans", ApiResponse.json (some "$2.00") none),
        ("Corn", ApiResponse.netError),
        ("Dill", ApiResponse.json none none),
        ("Eggs", ApiResponse.json (some "$3.00") none)] [0, 1, 2, 3, 4]).1[2]? = some none ∧
    (fanoutSlots [("Apple", ApiResponse.json (some "$1.00") none),
        ("Beans", ApiResponse.json (some "$2.00") none),
        ("Corn", ApiResponse.netError),
        ("Dill", ApiResponse.json none none),
        ("Eggs", ApiResponse.json (some "$3.00") none)] [0, 1, 2, 3, 4]).2[2]? = some none ∧
    some (none : Option String) ≠ some (some "Corn: Not available") := by
  refine ⟨by decide, by decide, by decide, by decide⟩

/-- C1 (amended): a `KeyError`/`IndexError` inside the JSON field chain
(missing fields or empty result arrays) is caught per item and converted
into the `"Not available"` price placeholder with an empty image; a network
error or malformed JSON escapes that handler, is caught per item in the
collection loop, and leaves `None` in both of that item's slots; in either
case every other item's slot is unaffected and the whole batch is never
aborted (all N slots are produced), for every completion order. -/
theorem claim_C1_failure_isolation (items : List (String × ApiResponse)) (order : List Nat)
    (horder : order.Perm (List.range items.length)) (i : Nat) (hi : i < items.length) :
    (∀ imgF, items[i].2 = ApiResponse.json none imgF →
        (fanoutSlots items order).1[i]? = some (some (items[i].1 ++ ": " ++ "Not available")) ∧
        (fanoutSlots items order).2[i]? = some (some "")) ∧
    ((items[i].2 = ApiResponse.netError ∨ items[i].2 = ApiResponse.badJson) →
        (fanoutSlots items order).1[i]? = some none ∧
        (fanoutSlots items order).2[i]? = some none) ∧
    (∀ j (hj : j < items.length), j ≠ i →
        (fanoutSlots items order).1[j]? = some (expectedSlot items[j]).1 ∧
        (fanoutSlots items order).2[j]? = some (expectedSlot items[j]).2) ∧
    (fanoutSlots items order).1.length = items.length ∧
    (fanoutSlots items order).2.length = items.length := by
  have hg := fanoutSlots_get items order horder i hi
  refine ⟨?_, ?_, ?_, (fanoutSlots_length items order).1, (fanoutSlots_length items order).2⟩
  · intro imgF hresp
    have : expectedSlot items[i] = (some (items[i].1 ++ ": " ++ "Not available"), some "") := by
      unfold expectedSlot fetch_price_and_image
      rw [hresp]
    rw [hg.1, hg.2, this]
    exact ⟨rfl, rfl⟩
  · intro hresp
    have : expectedSlot items[i] = (none, none) := by
      unfold expectedSlot fetch_price_and_image
      rcases hresp with h | h <;> rw [h]
    rw [hg.1, hg.2, this]
    exact ⟨rfl, rfl⟩
  · intro j hj _
    exact fanoutSlots_get items order horder j hj

/-- Witness for the amended C1 at the 5-item scenario of the spec: 3rd item
is a network error, 4th is an empty-results response. -/
theorem claim_C1_failure_isolation_witness :
    (fanoutSlots [("Apple", ApiResponse.json (some "$1.00") none),
        ("Beans", ApiResponse.json (some "$2.00") none),
        ("Corn", ApiResponse.netError),
        ("Dill", ApiResponse.json none none),
        ("Eggs", ApiResponse.json (some "$3.00") none)] [4, 2, 0, 3, 1]).1[3]? =
      some (some ("Dill" ++ ": " ++ "Not available")) ∧
    (fanoutSlots [("Apple", ApiResponse.json (some "$1.00") none),
        ("Beans", ApiResponse.json (some "$2.00") none),
        ("Corn", ApiResponse.netError),
        ("Dill", ApiResponse.json none none),
        ("Eggs", ApiResponse.json (some "$3.00") none)] [4, 2, 0, 3, 1]).1[2]? = some none := by
  have h := claim_C1_failure_isolation
    [("Apple", ApiResponse.json (some "$1.00") none),
      ("Beans", ApiResponse.json (some "$2.00") none),
      ("Corn", ApiResponse.netError),
      ("Dill", ApiResponse.json none none),
      ("Eggs", ApiResponse.json (some "$3.00") none)] [4, 2, 0, 3, 1] (by decide) 3 (by decide)
  have h2 := claim_C1_failure_isolation
    [("Apple", ApiResponse.json (some "$1.00") none),
      ("Beans", ApiResponse.json (some "$2.00") none),
      ("Corn", ApiResponse.netError),
      ("Dill", ApiResponse.json none none),
      ("Eggs", ApiResponse.json (some "$3.00") none)] [4, 2, 0, 3, 1] (by decide) 2 (by decide)
  exact ⟨(h.1 none (by decide)).1, (h2.2.1 (Or.inl (by decide))).1⟩

/-! ### Claim C3: image sampling policy (corrected)

Line 193 samples from `[img for img in image_list if img is not None]` with
size `min(len(image_list), 4)`.  The non-`None` pool keeps the *empty*
strings produced by caught per-item failures, so the sample is not drawn
from the non-empty snippets, and the sample size is computed from the full
list length, not from the pool. -/

/-- C3 (counterexample to the frozen claim): with collected image values
`[Some "", Some "<img src=x>"]` there is exactly one non-empty snippet, so
the claim requires the combined output to consist of exactly that snippet;
but the code's sampler must return both pool elements (sample size
`min(2,4) = 2`), and the possible sample `["", "<img src=x>"]` contains the
empty string, which is not a non-empty snippet. -/
theorem claim_C3_counterexample :
    isSample (imagePool [some "", some "<img src=x>"])
        (imageSampleSize [some "", some "<img src=x>"]) ["", "<img src=x>"] ∧
    "" ∈ ["", "<img src=x>"] ∧
    "" ∉ nonEmptySnippets [some "", some "<img src=x>"] ∧
    nonEmptySnippets [some "", some "<img src=x>"] = ["<img src=x>"] := by
  exact ⟨⟨rfl, ["", "<img src=x>"], List.Sublist.refl _, List.Perm.refl _⟩,
    by decide, by decide, by decide⟩

/-- C3 (amended): every possible sample has size `min(N, 4)` where `N` is the
total number of collected image values, and is drawn without replacement from
the non-`None` values (which include empty strings from caught failures);
when every value is non-`None` and `N ≤ 4` the sample is a permutation of all
of them; when the non-`None` pool is smaller than `min(N, 4)` no sample exists
(`random.sample` raises `ValueError`). -/
theorem claim_C3_image_sampling (image_list : List (Option String)) (r : List String)
    (h : isSample (imagePool image_list) (imageSampleSize image_list) r) :
    r.length = min image_list.length 4 ∧
    (∀ x ∈ r, x ∈ imagePool image_list) ∧
    ((∀ o ∈ image_list, o ≠ none) → image_list.length ≤ 4 →
      r.Perm (imagePool image_list)) ∧
    ((imagePool image_list).length < imageSampleSize image_list →
      ¬ ∃ s, isSample (imagePool image_list) (imageSampleSize image_list) s) := by
  obtain ⟨hlen, l, hsub, hperm⟩ := h
  have hpoolmem : ∀ x ∈ r, x ∈ imagePool image_list := by
    intro x hx
    exact hsub.subset (hperm.mem_iff.1 hx)
  refine ⟨hlen, hpoolmem, ?_, ?_⟩
  · intro hall hle
    have hpoollen : (imagePool image_list).length = image_list.length :=
      length_filterMap_id_of_all_some image_list hall
    have hk : imageSampleSize image_list = image_list.length := by
      unfold imageSampleSize
      exact Nat.min_eq_left hle
    have hleq : l.length = (imagePool image_list).length := by
      have := hperm.length_eq
      rw [← this, hlen, hk, hpoollen]
    have : l = imagePool image_list := hsub.eq_of_length hleq
    rw [← this]
    exact hperm
  · rintro hlt ⟨s, hslen, m, hmsub, hmperm⟩
    have h1 : m.length ≤ (imagePool image_list).length := hmsub.length_le
    have h2 : m.length = imageSampleSize image_list := by
      rw [← hmperm.length_eq, hslen]
    omega

/-- Witness for the amended C3: a 2-element all-some list sampled in swapped
order. -/
theorem claim_C3_image_sampling_witness :
    (["b", "a"] : List String).length = min ([some "a", some "b"] : List (Option String)).length 4 ∧
    (["b", "a"] : List String).Perm (imagePool [some "a", some "b"]) := by
  have h := claim_C3_image_sampling [some "a", some "b"] ["b", "a"]
    ⟨by decide, ["a", "b"], List.Sublist.refl _, by decide⟩
  exact ⟨h.1, h.2.2.1 (by decide) (by decide)⟩

/-! ### Claim C7: grocery list composition and run counter -/

/-- C7: the composer returns `static ++ alternate` when the persisted run
counter is odd and `static` alone when it is even, and always writes back
`run_count + 1`; in particular with counter 0 the alternate list is excluded
and the counter becomes 1, with counter 1 it is included and the counter
becomes 2. -/
theorem claim_C7_grocery_composition (separate alternate : List String) (run_count : Nat) :
    ((get_additional_grocery_list separate alternate run_count).1 =
      if run_count % 2 = 1 then separate ++ alternate else separate) ∧
    (get_additional_grocery_list separate alternate run_count).2 = run_count + 1 ∧
    (get_additional_grocery_list separate alternate 0).1 = separate ∧
    (get_additional_grocery_list separate alternate 0).2 = 1 ∧
    (get_additional_grocery_list separate alternate 1).1 = separate ++ alternate ∧
    (get_additional_grocery_list separate alternate 1).2 = 2 := by
  unfold get_additional_grocery_list
  refine ⟨?_, rfl, by simp, rfl, by simp, rfl⟩
  by_cases h : run_count % 2 = 1 <;> simp [h]

/-! ### Claim C4: menu selection pool size contract -/

/-- C4: for every catalog, exclusion set and meal count, when the candidate
pool (catalog rows not exactly matching any exclusion row) is smaller than
the count, the selection raises (the spec's `InsufficientCandidatesError`,
pandas' `ValueError`) and the run aborts before any network or email
activity; when the pool is at least the count, a sample exists and every
valid draw is returned with exactly `count` records. -/
theorem claim_C4_menu_selection (catalog exclusions : List MealRecord) (count : Nat)
    (draw : List MealRecord) :
    ((candidatePool catalog exclusions).length < count →
      get_weeks_meals catalog exclusions count draw = .error () ∧
      ∀ aisle_numbers enum,
        mainTrace catalog exclusions count draw aisle_numbers enum = [Ev.selectMeals]) ∧
    (count ≤ (candidatePool catalog exclusions).length →
      (∃ sel, isSample (candidatePool catalog exclusions) count sel) ∧
      (isSample (candidatePool catalog exclusions) count draw →
        get_weeks_meals catalog exclusions count draw = .ok draw ∧ draw.length = count)) := by
  constructor
  · intro hlt
    have herr : get_weeks_meals catalog exclusions count draw = .error () := by
      unfold get_weeks_meals
      rw [if_neg (by omega)]
    refine ⟨herr, ?_⟩
    intro aisle_numbers enum
    unfold mainTrace
    rw [herr]
  · intro hle
    constructor
    · refine ⟨(candidatePool catalog exclusions).take count, ?_, ?_⟩
      · rw [List.length_take]
        exact Nat.min_eq_left hle
      · exact ⟨(candidatePool catalog exclusions).take count, List.take_sublist _ _,
          List.Perm.refl _⟩
    · intro hdraw
      have hok : get_weeks_meals catalog exclusions count draw = .ok draw := by
        unfold get_weeks_meals
        rw [if_pos hle]
      exact ⟨hok, hdraw.1⟩

/-- Witness for C4: a 1-row catalog fully excluded (pool 0 < count 1,
selection errors) and the same catalog with no exclusions (pool 1 ≥ count 1,
the draw is returned). -/
theorem claim_C4_menu_selection_witness :
    get_weeks_meals [⟨"Pasta", [], "img"⟩] [⟨"Pasta", [], "img"⟩] 1 [] = Except.error () ∧
    mainTrace [⟨"Pasta", [], "img"⟩] [⟨"Pasta", [], "img"⟩] 1 [] (fun _ => none) [] =
      [Ev.selectMeals] ∧
    get_weeks_meals [⟨"Pasta", [], "img"⟩] [] 1 [⟨"Pasta", [], "img"⟩] =
      Except.ok [⟨"Pasta", [], "img"⟩] ∧
    ([⟨"Pasta", [], "img"⟩] : List MealRecord).length = 1 := by
  have h1 := (claim_C4_menu_selection [⟨"Pasta", [], "img"⟩] [⟨"Pasta", [], "img"⟩] 1 []).1
    (by decide)
  have h2 := ((claim_C4_menu_selection [⟨"Pasta", [], "img"⟩] [] 1 [⟨"Pasta", [], "img"⟩]).2
    (by decide)).2 ⟨by decide, [⟨"Pasta", [], "img"⟩], List.Sublist.refl _, List.Perm.refl _⟩
  exact ⟨h1.1, h1.2 (fun _ => none) [], h2.1, h2.2⟩

/-! ### Claim C6: empty selection handling (corrected)

The frozen claim says the run short-circuits *before* enrichment.  In
`main()` the only emptiness check is the one guarding the email at the very
end: `get_ingredients`, `get_price_and_images` and
`get_additional_grocery_list` (which increments the persisted counter) all
run unconditionally first.  With an empty selection the ingredient set is
empty, so the enrichment phase issues zero network requests — but it is
entered, and the counter is still incremented. -/

/-- C6 (counterexample to the frozen claim): a run with an empty selection
does not short-circuit before enrichment: the trace enters the enrichment
phase and increments the run counter before reporting
`"No meals available to send."`. -/
theorem claim_C6_counterexample :
    mainTrace [] [] 0 [] (fun _ => none) [] =
      [Ev.selectMeals, Ev.writeLastWeek, Ev.enrichPhase, Ev.incrementCounter,
        Ev.printNoMeals] ∧
    Ev.enrichPhase ∈ mainTrace [] [] 0 [] (fun _ => none) [] ∧
    Ev.incrementCounter ∈ mainTrace [] [] 0 [] (fun _ => none) [] := by
  refine ⟨by decide, by decide, by decide⟩

/-- C6 (amended): on an empty selection the run still enters the (vacuous)
enrichment phase and increments the persisted run counter, but issues no
enrichment network request, sends no email, and prints the
`"No meals available to send."` report instead. -/
theorem claim_C6_empty_selection (catalog exclusions : List MealRecord) (count : Nat)
    (draw : List MealRecord) (aisle_numbers : PyStr → Option Nat) (enum : List PyStr)
    (hok : count ≤ (candidatePool catalog exclusions).length)
    (hempty : draw = [])
    (henum : ∀ x, x ∈ enum ↔ x ∈ normalizeSet (draw.map MealRecord.ingredientsField)) :
    (∀ item, Ev.netRequest item ∉
        mainTrace catalog exclusions count draw aisle_numbers enum) ∧
    Ev.sendEmail ∉ mainTrace catalog exclusions count draw aisle_numbers enum ∧
    Ev.printNoMeals ∈ mainTrace catalog exclusions count draw aisle_numbers enum ∧
    Ev.enrichPhase ∈ mainTrace catalog exclusions count draw aisle_numbers enum ∧
    Ev.incrementCounter ∈ mainTrace catalog exclusions count draw aisle_numbers enum := by
  subst hempty
  have henil : enum = [] := by
    rw [List.eq_nil_iff_forall_not_mem]
    intro x hx
    have hmem := (henum x).1 hx
    simp [normalizeSet, normalizeTokens] at hmem
  subst henil
  have hgw : get_weeks_meals catalog exclusions count [] = .ok [] := by
    unfold get_weeks_meals
    rw [if_pos hok]
  unfold mainTrace
  rw [hgw]
  simp [sortIngredients, List.insertionSort]

/-- Witness for the amended C6 at a concrete empty run. -/
theorem claim_C6_empty_selection_witness :
    Ev.sendEmail ∉ mainTrace [⟨"Pasta", [], "img"⟩] [] 0 [] (fun _ => none) [] ∧
    Ev.printNoMeals ∈ mainTrace [⟨"Pasta", [], "img"⟩] [] 0 [] (fun _ => none) [] ∧
    Ev.incrementCounter ∈ mainTrace [⟨"Pasta", [], "img"⟩] [] 0 [] (fun _ => none) [] := by
  have h := claim_C6_empty_selection [⟨"Pasta", [], "img"⟩] [] 0 [] (fun _ => none) []
    (by decide) rfl (by intro x; simp [normalizeSet, normalizeTokens])
  exact ⟨h.2.1, h.2.2.1, h.2.2.2.2⟩

/-! ### Claim C8: aisle sorter contract -/

/-- C8: for every aisle lookup and every iteration order of the ingredient
set, the sorter's output is a permutation of the input with non-decreasing
aisle keys, every unmatched ingredient (key `⊤` = `float('inf')`) sorts
after all matched ones, and re-sorting an already-sorted sequence yields the
same sequence. -/
theorem claim_C8_aisle_sorter (aisle_numbers : PyStr → Option Nat) (enum : List PyStr) :
    (sortIngredients aisle_numbers enum).Perm enum ∧
    (sortIngredients aisle_numbers enum).Pairwise
      (fun a b => aisleKey aisle_numbers a ≤ aisleKey aisle_numbers b) ∧
    (sortIngredients aisle_numbers enum).Pairwise
      (fun a b => aisleKey aisle_numbers a = ⊤ → aisleKey aisle_numbers b = ⊤) ∧
    sortIngredients aisle_numbers (sortIngredients aisle_numbers enum) =
      sortIngredients aisle_numbers enum := by
  haveI : IsTotal PyStr (fun a b => aisleKey aisle_numbers a ≤ aisleKey aisle_numbers b) :=
    ⟨fun a b => le_total _ _⟩
  haveI : IsTrans PyStr (fun a b => aisleKey aisle_numbers a ≤ aisleKey aisle_numbers b) :=
    ⟨fun a b c hab hbc => le_trans hab hbc⟩
  refine ⟨List.perm_insertionSort _ enum, List.sorted_insertionSort _ enum, ?_, ?_⟩
  · exact (List.sorted_insertionSort _ enum).imp (fun h ha => top_le_iff.1 (ha ▸ h))
  · exact (List.sorted_insertionSort _ enum).insertionSort_eq

/-! ### Claim C5: tie-break determinism (corrected)

`sorted(ingredients, key=...)` has no secondary key: ties keep the iteration
order of the Python `set`, and set iteration order is not stable across runs
(string hashing is randomized per process).  So the tie-break is stable with
respect to the iteration order, but not alphabetical and not deterministic
across runs. -/

/-- C5 (counterexample to the frozen claim): two runs whose set iteration
orders differ (the two lists below are permutations of each other, i.e. the
same set) and whose ingredients share one aisle key (both unmatched) produce
different output sequences — the sorter is not deterministic in the set and
lookup alone, and uses no alphabetical secondary key. -/
theorem claim_C5_counterexample :
    ([[PyChar.lower 1], [PyChar.lower 0]] : List PyStr).Perm
      [[PyChar.lower 0], [PyChar.lower 1]] ∧
    sortIngredients (fun _ => none) [[PyChar.lower 1], [PyChar.lower 0]] =
      [[PyChar.lower 1], [PyChar.lower 0]] ∧
    sortIngredients (fun _ => none) [[PyChar.lower 0], [PyChar.lower 1]] =
      [[PyChar.lower 0], [PyChar.lower 1]] ∧
    sortIngredients (fun _ => none) [[PyChar.lower 1], [PyChar.lower 0]] ≠
      sortIngredients (fun _ => none) [[PyChar.lower 0], [PyChar.lower 1]] := by
  refine ⟨by decide, by decide, by decide, by decide⟩

lemma filter_key_orderedInsert (key : PyStr → WithTop Nat)
    [DecidableRel (fun a b => key a ≤ key b)] (k : WithTop Nat) (x : PyStr) (l : List PyStr) :
    (List.orderedInsert (fun a b => key a ≤ key b) x l).filter
        (fun a => decide (key a = k)) =
      if key x = k then x :: l.filter (fun a => decide (key a = k))
      else l.filter (fun a => decide (key a = k)) := by
  induction l with
  | nil =>
    by_cases h : key x = k <;> simp [List.orderedInsert, h]
  | cons y ys ih =>
    unfold List.orderedInsert
    by_cases hr : key x ≤ key y
    · rw [if_pos hr]
      simp only [List.filter_cons]
      by_cases hx : key x = k <;> simp [hx]
    · rw [if_neg hr]
      simp only [List.filter_cons]
      by_cases hx : key x = k
      · have hy : ¬ key y = k := by
          intro hyk
          exact hr (le_of_eq (by rw [hx, ← hyk]))
        simp [hx, hy, ih]
      · by_cases hy : key y = k <;> simp [hx, hy, ih]

/-- C5 (amended): the tie-break is stable with respect to the set's
iteration order — for every aisle key value, the subsequence of output
elements with that key equals the subsequence of iteration-order elements
with that key — and the output is therefore deterministic only for a fixed
iteration order; there is no alphabetical secondary key. -/
theorem claim_C5_tie_break_stability (aisle_numbers : PyStr → Option Nat)
    (enum : List PyStr) (k : WithTop Nat) :
    (sortIngredients aisle_numbers enum).filter
        (fun a => decide (aisleKey aisle_numbers a = k)) =
      enum.filter (fun a => decide (aisleKey aisle_numbers a = k)) := by
  induction enum with
  | nil => rfl
  | cons x l ih =>
    have hsort : sortIngredients aisle_numbers (x :: l) =
        List.orderedInsert (fun a b => aisleKey aisle_numbers a ≤ aisleKey aisle_numbers b) x
          (sortIngredients aisle_numbers l) := rfl
    rw [hsort, filter_key_orderedInsert (aisleKey aisle_numbers) k x
      (sortIngredients aisle_numbers l), List.filter_cons]
    by_cases hx : aisleKey aisle_numbers x = k
    · simp [hx, ih]
    · simp [hx, ih]

/-! ### Claim C9: ingredient normalizer -/

/-- C9: the normalized ingredient set contains no two elements that differ
only by letter case (equal after lowercasing) or only by leading/trailing
whitespace (equal after stripping), and re-applying the normalizer
(split on commas, strip, title-case, union into a set) to its own output
yields the same set. -/
theorem claim_C9_normalizer (fields : List PyStr) :
    (∀ x ∈ normalizeSet fields, ∀ y ∈ normalizeSet fields,
      (x.map pyToLower = y.map pyToLower ∨ pyStrip x = pyStrip y) → x = y) ∧
    normalizeSet (normalizeSet fields).toList = normalizeSet fields := by
  constructor
  · intro x hx y hy hcase
    obtain ⟨tx, hctx, rfl⟩ := mem_normalizeSet fields x hx
    obtain ⟨ty, hcty, rfl⟩ := mem_normalizeSet fields y hy
    rcases hcase with hlow | hstripEq
    · have h1 : (pyStrip tx).map pyToLower = (pyStrip ty).map pyToLower := by
        calc (pyStrip tx).map pyToLower
            = (pyTitle (pyStrip tx)).map pyToLower := (pyTitleAux_map_toLower false _).symm
          _ = (pyTitle (pyStrip ty)).map pyToLower := hlow
          _ = (pyStrip ty).map pyToLower := pyTitleAux_map_toLower false _
      exact pyTitleAux_congr (pyStrip tx) (pyStrip ty) false h1
    · calc pyTitle (pyStrip tx)
          = pyStrip (pyTitle (pyStrip tx)) := (pyStrip_normalized tx).symm
        _ = pyStrip (pyTitle (pyStrip ty)) := hstripEq
        _ = pyTitle (pyStrip ty) := pyStrip_normalized ty
  · have hfix : ∀ x ∈ (normalizeSet fields).toList,
        PyChar.comma ∉ x ∧ pyTitle (pyStrip x) = x := by
      intro x hxl
      have hx : x ∈ normalizeSet fields := Finset.mem_toList.1 hxl
      obtain ⟨t, hct, rfl⟩ := mem_normalizeSet fields x hx
      constructor
      · intro hc
        have h1 : PyChar.comma ∈ pyStrip t := (comma_mem_pyTitleAux false (pyStrip t)).1 hc
        exact hct ((pyStrip_sublist t).subset h1)
      · rw [pyStrip_normalized t]
        exact pyTitle_normalized t
    show (normalizeTokens (normalizeSet fields).toList).toFinset = normalizeSet fields
    rw [normalizeTokens_fixed _ hfix]
    exact Finset.toList_toFinset _

/-- Witness for C9 on the field `"a, B"` (one meal whose raw ingredient
string holds two comma-separated tokens): the normalizer is idempotent on
its output and the x = y application of the uniqueness part goes through. -/
theorem claim_C9_normalizer_witness :
    normalizeSet
        ((normalizeSet [[PyChar.lower 0, PyChar.comma, PyChar.space, PyChar.upper 1]]).toList) =
      normalizeSet [[PyChar.lower 0, PyChar.comma, PyChar.space, PyChar.upper 1]] ∧
    ([PyChar.upper 0] : PyStr) ∈
      normalizeSet [[PyChar.lower 0, PyChar.comma, PyChar.space, PyChar.upper 1]] ∧
    ([PyChar.upper 0] : PyStr) = [PyChar.upper 0] := by
  have h := claim_C9_normalizer [[PyChar.lower 0, PyChar.comma, PyChar.space, PyChar.upper 1]]
  have happ := h.1 [PyChar.upper 0] (by decide) [PyChar.upper 0] (by decide) (Or.inl rfl)
  exact ⟨h.2, by decide, happ⟩

/-! ### Claim C10: email rendering requires 4 menu rows -/

lemma mapM_option_none {α β : Type} (f : α → Option β) (l : List α) (a : α)
    (ha : a ∈ l) (hf : f a = none) : l.mapM f = none := by
  induction l with
  | nil => cases ha
  | cons x xs ih =>
    rcases List.mem_cons.1 ha with rfl | ha
    · rw [List.mapM_cons, hf]
      rfl
    · cases hx : f x with
      | none =>
        rw [List.mapM_cons, hx]
        rfl
      | some b =>
        rw [List.mapM_cons, hx, ih ha]
        rfl

/-- C10: `create_email_content` reads the `Meal` and `Image` values at
positions 0-3; for any menu with fewer than 4 rows it raises an
out-of-bounds `IndexError` (`none`), and for a menu of exactly 4 rows the
produced HTML contains exactly one day block per row, pairing row `i`'s meal
and image with the `i`-th weekday Monday-Thursday. -/
theorem claim_C10_email_indexing (menu_meals menu_images : List String)
    (ingredients_prices : List (Option String)) (images : String)
    (additional_grocery_list : List String) :
    (menu_meals.length < 4 →
      create_email_content menu_meals menu_images ingredients_prices images
        additional_grocery_list = none) ∧
    (∀ m0 m1 m2 m3 r0 r1 r2 r3,
      menu_meals = [m0, m1, m2, m3] → menu_images = [r0, r1, r2, r3] →
      create_email_content menu_meals menu_images ingredients_prices images
          additional_grocery_list =
        some (emailHeader ++
          String.join [dayBlock "Monday" m0 r0, dayBlock "Tuesday" m1 r1,
            dayBlock "Wednesday" m2 r2, dayBlock "Thursday" m3 r3] ++
          groceryListOpen ++ listItemsHtml (ingredients_prices.map pyShowOpt) ++ listClose ++
          additionalListOpen ++ listItemsHtml additional_grocery_list ++ listClose ++
          images ++ emailFooter)) := by
  constructor
  · intro hlt
    have hmm : days.enum.mapM (dayPart menu_meals menu_images) = none := by
      apply mapM_option_none _ _ ((3 : Nat), "Thursday") (by decide)
      unfold dayPart
      have h3 : menu_meals[3]? = none := List.getElem?_eq_none (by omega)
      cases him : menu_images[3]? <;> simp [h3, him]
    unfold create_email_content
    rw [hmm]
    rfl
  · intro m0 m1 m2 m3 r0 r1 r2 r3 h1 h2
    subst h1
    subst h2
    rfl

/-- Witness for C10: a 1-row menu raises, a concrete 4-row menu renders the
four day blocks in order. -/
theorem claim_C10_email_indexing_witness :
    create_email_content ["A"] ["a"] [] "" [] = none ∧
    create_email_content ["A", "B", "C", "D"] ["a", "b", "c", "d"]
        [some "Apple: $1.00", none] "IMG" ["milk"] =
      some (emailHeader ++
        String.join [dayBlock "Monday" "A" "a", dayBlock "Tuesday" "B" "b",
          dayBlock "Wednesday" "C" "c", dayBlock "Thursday" "D" "d"] ++
        groceryListOpen ++ listItemsHtml ([some "Apple: $1.00", none].map pyShowOpt) ++
        listClose ++ additionalListOpen ++ listItemsHtml ["milk"] ++ listClose ++
        "IMG" ++ emailFooter) := by
  have h1 := (claim_C10_email_indexing ["A"] ["a"] [] "" []).1 (by decide)
  have h2 := (claim_C10_email_indexing ["A", "B", "C", "D"] ["a", "b", "c", "d"]
    [some "Apple: $1.00", none] "IMG" ["milk"]).2 "A" "B" "C" "D" "a" "b" "c" "d" rfl rfl
  exact ⟨h1, h2⟩

end MealPlanner
